import Mathlib

/-!
Verification of the pagination engine of tiptap-pagination-breaks
(src/index.ts).

The document model is a shallow embedding of ProseMirror trees: a node is
either a text node (always nonempty, as ProseMirror guarantees) or an
element node with a type name, a block flag and a list of children.  A
document is the fragment (list of top-level nodes) of the root doc node.

Node sizes, the depth-first descendants traversal (with its start
positions) and Node.nodeAt follow the ProseMirror semantics the plugin
relies on:
- nodeSize of a text node is its length, of an element 2 + content size;
- the first top-level child starts at position 0, children of a node at
  position p start at p + 1;
- nodeAt finds the child containing the queried position, returns it when
  it starts exactly there or is a text node, and otherwise descends.

Rendered heights are abstracted by a lookup from a node's start position
to its measured height (0 meaning: not measurable / zero height, which the
plugin skips), covering both the nodeDOM instanceof HTMLElement guard and
the nodeHeight === 0 guard of the source.
-/

inductive PMNode : Type where
  | text (lenPred : Nat)
  | elem (typeName : String) (isBlock : Bool) (children : List PMNode)

mutual
def PMNode.nodeSize : PMNode → Nat
  | .text lenPred => lenPred + 1
  | .elem _ _ children => 2 + fragmentSize children
def fragmentSize : List PMNode → Nat
  | [] => 0
  | n :: ns => n.nodeSize + fragmentSize ns
end

def PMNode.typeName : PMNode → String
  | .text _ => "text"
  | .elem t _ _ => t

def PMNode.isBlock : PMNode → Bool
  | .text _ => false
  | .elem _ b _ => b

-- Depth-first traversal in document order, as doc.descendants visits it:
-- each visited node paired with its start position.
mutual
def descendantsNode (n : PMNode) (pos : Nat) : List (PMNode × Nat) :=
  match n with
  | .text lenPred => [(.text lenPred, pos)]
  | .elem t b children => (.elem t b children, pos) :: descendantsList children (pos + 1)
def descendantsList : List PMNode → Nat → List (PMNode × Nat)
  | [], _ => []
  | n :: ns, pos => descendantsNode n pos ++ descendantsList ns (pos + n.nodeSize)
end

-- Node.nodeAt of ProseMirror, on a fragment: find the child containing
-- the position; return it when the position is exactly its start or it is
-- a text node, else descend into its content.
mutual
def nodeAtDesc : PMNode → Nat → Option PMNode
  | .text lenPred, _ => some (.text lenPred)
  | .elem _ _ children, pos => nodeAtList children pos
def nodeAtList : List PMNode → Nat → Option PMNode
  | [], _ => none
  | n :: ns, pos =>
    if pos < n.nodeSize then
      if pos = 0 then some n
      else nodeAtDesc n (pos - 1)
    else nodeAtList ns (pos - n.nodeSize)
end

/-- PaginationOptions of the plugin (label and showPageNumber are optional
in the TypeScript interface). -/
structure PaginationOptions where
  pageHeight : Int
  pageWidth : Int
  pageMargin : Int
  label : Option String
  showPageNumber : Option Bool
deriving DecidableEq

/-- A Partial of PaginationOptions: a key is either absent or carries a
value of the field's type. -/
structure PartialPaginationOptions where
  pageHeight : Option Int
  pageWidth : Option Int
  pageMargin : Option Int
  label : Option (Option String)
  showPageNumber : Option (Option Bool)
deriving DecidableEq

/-- Shallow merge of a partial patch over the current options, as the
spread expression in the plugin state apply function produces it: every
key present in the patch takes the patch's value, absent keys keep the
prior value. -/
def mergeOptions (value : PaginationOptions) (patch : PartialPaginationOptions) :
    PaginationOptions :=
  { pageHeight := patch.pageHeight.getD value.pageHeight
    pageWidth := patch.pageWidth.getD value.pageWidth
    pageMargin := patch.pageMargin.getD value.pageMargin
    label := patch.label.getD value.label
    showPageNumber := patch.showPageNumber.getD value.showPageNumber }

/-- The plugin state apply function: when the transaction carries a
paginationOptions meta entry, merge it over the current value, otherwise
keep the value. -/
def applyPaginationMeta (meta : Option PartialPaginationOptions)
    (value : PaginationOptions) : PaginationOptions :=
  match meta with
  | some patch => mergeOptions value patch
  | none => value

/-- Defaults from addOptions. -/
def defaultOptions : PaginationOptions :=
  { pageHeight := 1056, pageWidth := 816, pageMargin := 96,
    label := some "Page", showPageNumber := some true }

def effectivePageHeight (o : PaginationOptions) : Int :=
  o.pageHeight - 2 * o.pageMargin

/-- The transient per-traversal state of the decorations computation:
emitted break positions in emission order plus the mutable locals of the
source. -/
structure FoldState where
  breaks : List Nat
  currentPageHeight : Nat
  lastNodeWasList : Bool
  currentListHeight : Nat
  listStartPos : Nat
deriving DecidableEq

def initState : FoldState :=
  { breaks := [], currentPageHeight := 0, lastNodeWasList := false,
    currentListHeight := 0, listStartPos := 0 }

/-- One step of the doc.descendants callback of the main decorations
computation (the list-grouping variant), acting on the traversal state.
doc is the full document fragment (consulted through nodeAt for the
closure test), measure the height lookup. -/
def visit (doc : List PMNode) (measure : Nat → Nat) (effH : Int)
    (s : FoldState) (np : PMNode × Nat) : FoldState :=
  let node := np.1
  let pos := np.2
  if !node.isBlock then s else
  let isList := node.typeName == "bulletList" || node.typeName == "orderedList"
  let isListItem := node.typeName == "listItem"
  let nodeHeight := measure pos
  if nodeHeight = 0 then s else
  if isList || isListItem then
    let listStartPos := if !s.lastNodeWasList then pos else s.listStartPos
    let currentListHeight :=
      (if !s.lastNodeWasList then 0 else s.currentListHeight) + nodeHeight
    let nextNode := nodeAtList doc (pos + node.nodeSize)
    let isLastListItem :=
      match nextNode with
      | none => true
      | some q => !(q.typeName == "listItem") && !(q.typeName == "bulletList")
          && !(q.typeName == "orderedList")
    if isLastListItem then
      if (s.currentPageHeight : Int) + (currentListHeight : Int) > effH then
        { breaks := s.breaks ++ [listStartPos], currentPageHeight := currentListHeight,
          lastNodeWasList := false, currentListHeight := currentListHeight,
          listStartPos := listStartPos }
      else
        { breaks := s.breaks, currentPageHeight := s.currentPageHeight + currentListHeight,
          lastNodeWasList := false, currentListHeight := currentListHeight,
          listStartPos := listStartPos }
    else
      { breaks := s.breaks, currentPageHeight := s.currentPageHeight,
        lastNodeWasList := true, currentListHeight := currentListHeight,
        listStartPos := listStartPos }
  else
    if (s.currentPageHeight : Int) + (nodeHeight : Int) > effH then
      { breaks := s.breaks ++ [pos], currentPageHeight := nodeHeight,
        lastNodeWasList := false, currentListHeight := s.currentListHeight,
        listStartPos := s.listStartPos }
    else
      { breaks := s.breaks, currentPageHeight := s.currentPageHeight + nodeHeight,
        lastNodeWasList := false, currentListHeight := s.currentListHeight,
        listStartPos := s.listStartPos }

/-- The ordered break positions the main decorations computation emits for
a document, height lookup and configuration. -/
def computeBreaks (doc : List PMNode) (measure : Nat → Nat)
    (o : PaginationOptions) : List Nat :=
  (List.foldl (visit doc measure (effectivePageHeight o)) initState
    (descendantsList doc 0)).breaks

/-- A break decoration as delivered to the host: position plus the page
number its widget renders. -/
structure BreakPoint where
  position : Nat
  pageNumberLabel : Nat
deriving DecidableEq

/-- Rendering the emitted widgets once, in emission order: the source
keeps a pageNumber counter starting at 1 that each widget reads when its
DOM is built and then increments. -/
def renderBreaksAux : Nat → List Nat → List BreakPoint
  | _, [] => []
  | pageNumber, pos :: rest =>
    { position := pos, pageNumberLabel := pageNumber } :: renderBreaksAux (pageNumber + 1) rest

def renderBreaks (positions : List Nat) : List BreakPoint :=
  renderBreaksAux 1 positions

def computeBreakPoints (doc : List PMNode) (measure : Nat → Nat)
    (o : PaginationOptions) : List BreakPoint :=
  renderBreaks (computeBreaks doc measure o)

/-- One step of the doc.descendants callback of the duplicated simpler
decorations computation found after the main one in the source: no list
grouping, no zero-height skip; non-block or unmeasurable nodes contribute
height 0; on overflow the height is reset to 0 and then the node height is
accumulated. -/
def visitSimple (measure : Nat → Nat) (effH : Int)
    (s : List Nat × Nat) (np : PMNode × Nat) : List Nat × Nat :=
  let nodeHeight := if np.1.isBlock then measure np.2 else 0
  if (s.2 : Int) + (nodeHeight : Int) > effH then
    (s.1 ++ [np.2], 0 + nodeHeight)
  else
    (s.1, s.2 + nodeHeight)

/-- Break positions of the duplicated simpler decorations computation. -/
def computeBreaksSimple (doc : List PMNode) (measure : Nat → Nat)
    (o : PaginationOptions) : List Nat :=
  (List.foldl (visitSimple measure (o.pageHeight - 2 * o.pageMargin)) ([], 0)
    (descendantsList doc 0)).1

-- Convenient node constructors used by the concrete documents below.
def paragraphNode : PMNode := .elem "paragraph" true []
def listItemNode : PMNode := .elem "listItem" true []

/-- Three consecutive ordinary paragraphs, the numeric scenario document:
positions 0, 2, 4. -/
def scenarioDoc : List PMNode := [paragraphNode, paragraphNode, paragraphNode]

/-- Heights 500, 500, 100 for the numeric scenario. -/
def scenarioMeasure : Nat → Nat :=
  fun p => if p = 0 then 500 else if p = 2 then 500 else if p = 4 then 100 else 0

/-- A paragraph followed by a bullet list with two items: paragraph at 0,
container at 2, items at 3 and 5. -/
def containerListDoc : List PMNode :=
  [paragraphNode, .elem "bulletList" true [listItemNode, listItemNode]]

/-- Measured heights: paragraph 100, container 500, items 250 each, so the
maximal run of list-related nodes (positions 2, 3, 5) accumulates 1000. -/
def containerListMeasure : Nat → Nat :=
  fun p => if p = 0 then 100 else if p = 2 then 500
    else if p = 3 then 250 else if p = 5 then 250 else 0

/-- A blockquote (non-list block, span 0..4) containing a paragraph that
starts at position 1, strictly inside the blockquote's span. -/
def blockquoteDoc : List PMNode := [.elem "blockquote" true [paragraphNode]]

def blockquoteMeasure : Nat → Nat :=
  fun p => if p = 0 then 500 else if p = 1 then 500 else 0

/-- A single paragraph whose height alone exceeds the effective page
height of the default configuration. -/
def tallFirstDoc : List PMNode := [paragraphNode]

def tallFirstMeasure : Nat → Nat := fun _ => 900

/-- A paragraph, two bare sibling list items (positions 2 and 4) and a
closing paragraph; the second item measures 0, so the accumulation opened
at position 2 is abandoned when the closing paragraph is reached. -/
def danglingListDoc : List PMNode :=
  [paragraphNode, listItemNode, listItemNode, paragraphNode]

def danglingListMeasure : Nat → Nat :=
  fun p => if p = 0 then 100 else if p = 2 then 100
    else if p = 4 then 0 else if p = 6 then 100 else 0

/-- A degenerate configuration: effective page height 100 - 2*96 = -92. -/
def degenerateOptions : PaginationOptions :=
  { pageHeight := 100, pageWidth := 816, pageMargin := 96,
    label := none, showPageNumber := none }

/-- A paragraph followed by two bare sibling list items: the main variant
groups the items, the duplicated simpler variant does not. -/
def mixedListDoc : List PMNode := [paragraphNode, listItemNode, listItemNode]

def mixedListMeasure : Nat → Nat :=
  fun p => if p = 0 then 500 else if p = 2 then 200 else if p = 4 then 300 else 0

/-- The list-relatedness test the callback applies to a node's type name:
bulletList, orderedList or listItem. -/
def isListRelatedName (s : String) : Bool :=
  (s == "bulletList" || s == "orderedList") || s == "listItem"

/-- The closure test the callback applies to the nodeAt result after a
list-related node: absent, or not list-related. -/
def isLastFromOpt : Option PMNode → Bool
  | none => true
  | some q => !(q.typeName == "listItem") && !(q.typeName == "bulletList")
      && !(q.typeName == "orderedList")

/-- A visited node actually processed by the callback: block-level and of
nonzero measured height. -/
def relevantPred (measure : Nat → Nat) (x : PMNode × Nat) : Bool :=
  x.1.isBlock && !(measure x.2 == 0)

/-- Sum of the measured heights of k sibling bare list items laid out from
position q onward (each of node size 2). -/
def runSum (measure : Nat → Nat) : Nat → Nat → Nat
  | _, 0 => 0
  | q, k + 1 => measure q + runSum measure (q + 2) k

/-- Invariant carried through the traversal fold: emitted break positions
are strictly increasing and below every position still to be visited, and
an open list accumulation keeps its start position above every emitted
break and below every position still to be visited. -/
def GoodState (s : FoldState) (lo : Nat) : Prop :=
  s.breaks.Pairwise (· < ·) ∧
  (∀ b ∈ s.breaks, b < lo) ∧
  (s.lastNodeWasList = true → s.listStartPos < lo ∧ ∀ b ∈ s.breaks, b < s.listStartPos)

/-- C6, confirmed: a visited block node whose measured height is 0 is
skipped entirely: the traversal state, in particular the emitted breaks,
the current page height and the list accumulator, is unchanged. -/
theorem c6_zero_height_skip (doc : List PMNode) (measure : Nat → Nat) (effH : Int)
    (s : FoldState) (n : PMNode) (pos : Nat)
    (hblock : n.isBlock = true) (h0 : measure pos = 0) :
    visit doc measure effH s (n, pos) = s := by
  simp [visit, hblock, h0]

theorem c6_zero_height_skip_witness :
    visit [] (fun _ => 0) 864 initState (paragraphNode, 0) = initState :=
  c6_zero_height_skip [] (fun _ => 0) 864 initState paragraphNode 0 rfl rfl

/-- C7, confirmed: the decorations computation is a pure function of the
document, the height lookup and the configuration, so two invocations on
the same inputs return the same break sequence, positions and page-number
labels included. -/
theorem c7_determinism (doc : List PMNode) (measure : Nat → Nat)
    (o : PaginationOptions) :
    computeBreakPoints doc measure o = computeBreakPoints doc measure o ∧
    computeBreaks doc measure o = computeBreaks doc measure o :=
  ⟨rfl, rfl⟩

/-- C8, confirmed: applying a partial options patch is the shallow merge
of the patch over the current options: a key present in the patch takes
the patch's value, an absent key retains the prior value; in particular a
patch touching only pageMargin leaves every other field unchanged. -/
theorem c8_config_patch_isolation :
    (∀ (value : PaginationOptions) (margin : Int),
      applyPaginationMeta (some ⟨none, none, some margin, none, none⟩) value =
        { value with pageMargin := margin }) ∧
    (∀ (value : PaginationOptions) (patch : PartialPaginationOptions),
      ((patch.pageHeight = none →
          (mergeOptions value patch).pageHeight = value.pageHeight) ∧
        ∀ x, patch.pageHeight = some x → (mergeOptions value patch).pageHeight = x) ∧
      ((patch.pageWidth = none →
          (mergeOptions value patch).pageWidth = value.pageWidth) ∧
        ∀ x, patch.pageWidth = some x → (mergeOptions value patch).pageWidth = x) ∧
      ((patch.pageMargin = none →
          (mergeOptions value patch).pageMargin = value.pageMargin) ∧
        ∀ x, patch.pageMargin = some x → (mergeOptions value patch).pageMargin = x) ∧
      ((patch.label = none → (mergeOptions value patch).label = value.label) ∧
        ∀ x, patch.label = some x → (mergeOptions value patch).label = x) ∧
      ((patch.showPageNumber = none →
          (mergeOptions value patch).showPageNumber = value.showPageNumber) ∧
        ∀ x, patch.showPageNumber = some x →
          (mergeOptions value patch).showPageNumber = x)) := by
  constructor
  · intro value margin
    rfl
  · intro value patch
    refine ⟨⟨?_, ?_⟩, ⟨?_, ?_⟩, ⟨?_, ?_⟩, ⟨?_, ?_⟩, ⟨?_, ?_⟩⟩ <;>
      first
        | (intro h; simp [mergeOptions, h])
        | (intro x h; simp [mergeOptions, h])

theorem c8_config_patch_isolation_witness :
    applyPaginationMeta (some ⟨none, none, some 50, none, none⟩) defaultOptions =
      { defaultOptions with pageMargin := 50 } ∧
    (mergeOptions defaultOptions ⟨none, none, some 50, none, none⟩).pageHeight =
      defaultOptions.pageHeight ∧
    (mergeOptions defaultOptions ⟨none, none, some 50, none, none⟩).pageMargin = 50 :=
  ⟨c8_config_patch_isolation.1 defaultOptions 50,
   (c8_config_patch_isolation.2 defaultOptions ⟨none, none, some 50, none, none⟩).1.1 rfl,
   (c8_config_patch_isolation.2 defaultOptions
      ⟨none, none, some 50, none, none⟩).2.2.1.2 50 rfl⟩

/-- A node that is not block-level or measures 0 leaves the state
untouched. -/
theorem visit_skip (doc : List PMNode) (measure : Nat → Nat) (effH : Int)
    (s : FoldState) (np : PMNode × Nat)
    (h : relevantPred measure np = false) :
    visit doc measure effH s np = s := by
  rcases np with ⟨n, pos⟩
  cases hb : n.isBlock with
  | false => simp [visit, hb]
  | true =>
    have h0 : measure pos = 0 := by
      simpa [relevantPred, hb] using h
    simp [visit, hb, h0]

/-- Step characterization for a relevant non-list block node. -/
theorem visit_nonlist (doc : List PMNode) (measure : Nat → Nat) (effH : Int)
    (s : FoldState) (n : PMNode) (pos : Nat)
    (hb : n.isBlock = true) (hh : measure pos ≠ 0)
    (hnl : isListRelatedName n.typeName = false) :
    visit doc measure effH s (n, pos) =
      if (s.currentPageHeight : Int) + (measure pos : Int) > effH then
        { breaks := s.breaks ++ [pos], currentPageHeight := measure pos,
          lastNodeWasList := false, currentListHeight := s.currentListHeight,
          listStartPos := s.listStartPos }
      else
        { breaks := s.breaks, currentPageHeight := s.currentPageHeight + measure pos,
          lastNodeWasList := false, currentListHeight := s.currentListHeight,
          listStartPos := s.listStartPos } := by
  have hnl' : ((n.typeName == "bulletList" || n.typeName == "orderedList")
      || n.typeName == "listItem") = false := hnl
  simp [visit, hb, hh, hnl']

/-- Step characterization for a relevant list-related block node. -/
theorem visit_list (doc : List PMNode) (measure : Nat → Nat) (effH : Int)
    (s : FoldState) (n : PMNode) (pos : Nat)
    (hb : n.isBlock = true) (hh : measure pos ≠ 0)
    (hl : isListRelatedName n.typeName = true) :
    visit doc measure effH s (n, pos) =
      (if isLastFromOpt (nodeAtList doc (pos + n.nodeSize)) then
        if (s.currentPageHeight : Int) +
            (((if !s.lastNodeWasList then 0 else s.currentListHeight) + measure pos : Nat) : Int)
            > effH then
          { breaks := s.breaks ++ [if !s.lastNodeWasList then pos else s.listStartPos],
            currentPageHeight := (if !s.lastNodeWasList then 0 else s.currentListHeight) + measure pos,
            lastNodeWasList := false,
            currentListHeight := (if !s.lastNodeWasList then 0 else s.currentListHeight) + measure pos,
            listStartPos := if !s.lastNodeWasList then pos else s.listStartPos }
        else
          { breaks := s.breaks,
            currentPageHeight := s.currentPageHeight +
              ((if !s.lastNodeWasList then 0 else s.currentListHeight) + measure pos),
            lastNodeWasList := false,
            currentListHeight := (if !s.lastNodeWasList then 0 else s.currentListHeight) + measure pos,
            listStartPos := if !s.lastNodeWasList then pos else s.listStartPos }
      else
        { breaks := s.breaks, currentPageHeight := s.currentPageHeight,
          lastNodeWasList := true,
          currentListHeight := (if !s.lastNodeWasList then 0 else s.currentListHeight) + measure pos,
          listStartPos := if !s.lastNodeWasList then pos else s.listStartPos }) := by
  have hl' : ((n.typeName == "bulletList" || n.typeName == "orderedList")
      || n.typeName == "listItem") = true := hl
  cases hNext : nodeAtList doc (pos + n.nodeSize) with
  | none => simp [visit, hb, hh, hl', hNext, isLastFromOpt]
  | some q => simp [visit, hb, hh, hl', hNext, isLastFromOpt]

/-- Non-list step, overflow case. -/
theorem visit_nonlist_break (doc : List PMNode) (measure : Nat → Nat) (effH : Int)
    (s : FoldState) (n : PMNode) (pos : Nat)
    (hb : n.isBlock = true) (hh : measure pos ≠ 0)
    (hnl : isListRelatedName n.typeName = false)
    (hov : effH < (s.currentPageHeight : Int) + (measure pos : Int)) :
    visit doc measure effH s (n, pos) =
      { breaks := s.breaks ++ [pos], currentPageHeight := measure pos,
        lastNodeWasList := false, currentListHeight := s.currentListHeight,
        listStartPos := s.listStartPos } := by
  rw [visit_nonlist doc measure effH s n pos hb hh hnl]
  simp [hov]

/-- Non-list step, fitting case. -/
theorem visit_nonlist_fit (doc : List PMNode) (measure : Nat → Nat) (effH : Int)
    (s : FoldState) (n : PMNode) (pos : Nat)
    (hb : n.isBlock = true) (hh : measure pos ≠ 0)
    (hnl : isListRelatedName n.typeName = false)
    (hov : ¬ effH < (s.currentPageHeight : Int) + (measure pos : Int)) :
    visit doc measure effH s (n, pos) =
      { breaks := s.breaks, currentPageHeight := s.currentPageHeight + measure pos,
        lastNodeWasList := false, currentListHeight := s.currentListHeight,
        listStartPos := s.listStartPos } := by
  rw [visit_nonlist doc measure effH s n pos hb hh hnl]
  simp [hov]

/-- List step opening a fresh accumulation that stays open. -/
theorem visit_list_open_fresh (doc : List PMNode) (measure : Nat → Nat) (effH : Int)
    (s : FoldState) (n : PMNode) (pos : Nat)
    (hb : n.isBlock = true) (hh : measure pos ≠ 0)
    (hl : isListRelatedName n.typeName = true)
    (hlast : s.lastNodeWasList = false)
    (hcl : isLastFromOpt (nodeAtList doc (pos + n.nodeSize)) = false) :
    visit doc measure effH s (n, pos) =
      { breaks := s.breaks, currentPageHeight := s.currentPageHeight,
        lastNodeWasList := true, currentListHeight := measure pos,
        listStartPos := pos } := by
  rw [visit_list doc measure effH s n pos hb hh hl]
  simp [hlast, hcl]

/-- List step continuing an open accumulation that stays open. -/
theorem visit_list_open_cont (doc : List PMNode) (measure : Nat → Nat) (effH : Int)
    (s : FoldState) (n : PMNode) (pos : Nat)
    (hb : n.isBlock = true) (hh : measure pos ≠ 0)
    (hl : isListRelatedName n.typeName = true)
    (hlast : s.lastNodeWasList = true)
    (hcl : isLastFromOpt (nodeAtList doc (pos + n.nodeSize)) = false) :
    visit doc measure effH s (n, pos) =
      { breaks := s.breaks, currentPageHeight := s.currentPageHeight,
        lastNodeWasList := true,
        currentListHeight := s.currentListHeight + measure pos,
        listStartPos := s.listStartPos } := by
  rw [visit_list doc measure effH s n pos hb hh hl]
  simp [hlast, hcl]

/-- List step that opens and immediately closes a singleton accumulation,
overflow case. -/
theorem visit_list_close_break_fresh (doc : List PMNode) (measure : Nat → Nat) (effH : Int)
    (s : FoldState) (n : PMNode) (pos : Nat)
    (hb : n.isBlock = true) (hh : measure pos ≠ 0)
    (hl : isListRelatedName n.typeName = true)
    (hlast : s.lastNodeWasList = false)
    (hcl : isLastFromOpt (nodeAtList doc (pos + n.nodeSize)) = true)
    (hov : effH < (s.currentPageHeight : Int) + (measure pos : Int)) :
    visit doc measure effH s (n, pos) =
      { breaks := s.breaks ++ [pos], currentPageHeight := measure pos,
        lastNodeWasList := false, currentListHeight := measure pos,
        listStartPos := pos } := by
  rw [visit_list doc measure effH s n pos hb hh hl]
  simp [hlast, hcl, hov]

/-- List step that opens and immediately closes a singleton accumulation,
fitting case. -/
theorem visit_list_close_fit_fresh (doc : List PMNode) (measure : Nat → Nat) (effH : Int)
    (s : FoldState) (n : PMNode) (pos : Nat)
    (hb : n.isBlock = true) (hh : measure pos ≠ 0)
    (hl : isListRelatedName n.typeName = true)
    (hlast : s.lastNodeWasList = false)
    (hcl : isLastFromOpt (nodeAtList doc (pos + n.nodeSize)) = true)
    (hov : ¬ effH < (s.currentPageHeight : Int) + (measure pos : Int)) :
    visit doc measure effH s (n, pos) =
      { breaks := s.breaks, currentPageHeight := s.currentPageHeight + measure pos,
        lastNodeWasList := false, currentListHeight := measure pos,
        listStartPos := pos } := by
  rw [visit_list doc measure effH s n pos hb hh hl]
  simp [hlast, hcl, hov]

/-- List step closing an open accumulation, overflow case: the single
break for the accumulated unit, at its start. -/
theorem visit_list_close_break_cont (doc : List PMNode) (measure : Nat → Nat) (effH : Int)
    (s : FoldState) (n : PMNode) (pos : Nat)
    (hb : n.isBlock = true) (hh : measure pos ≠ 0)
    (hl : isListRelatedName n.typeName = true)
    (hlast : s.lastNodeWasList = true)
    (hcl : isLastFromOpt (nodeAtList doc (pos + n.nodeSize)) = true)
    (hov : effH < (s.currentPageHeight : Int) +
      ((s.currentListHeight : Int) + (measure pos : Int))) :
    visit doc measure effH s (n, pos) =
      { breaks := s.breaks ++ [s.listStartPos],
        currentPageHeight := s.currentListHeight + measure pos,
        lastNodeWasList := false,
        currentListHeight := s.currentListHeight + measure pos,
        listStartPos := s.listStartPos } := by
  rw [visit_list doc measure effH s n pos hb hh hl]
  simp [hlast, hcl, hov]

/-- List step closing an open accumulation, fitting case. -/
theorem visit_list_close_fit_cont (doc : List PMNode) (measure : Nat → Nat) (effH : Int)
    (s : FoldState) (n : PMNode) (pos : Nat)
    (hb : n.isBlock = true) (hh : measure pos ≠ 0)
    (hl : isListRelatedName n.typeName = true)
    (hlast : s.lastNodeWasList = true)
    (hcl : isLastFromOpt (nodeAtList doc (pos + n.nodeSize)) = true)
    (hov : ¬ effH < (s.currentPageHeight : Int) +
      ((s.currentListHeight : Int) + (measure pos : Int))) :
    visit doc measure effH s (n, pos) =
      { breaks := s.breaks,
        currentPageHeight := s.currentPageHeight + (s.currentListHeight + measure pos),
        lastNodeWasList := false,
        currentListHeight := s.currentListHeight + measure pos,
        listStartPos := s.listStartPos } := by
  rw [visit_list doc measure effH s n pos hb hh hl]
  simp [hlast, hcl, hov]

/-- Any step either leaves the break list unchanged or appends exactly one
position: the node's own position, or the start of the open accumulation. -/
theorem visit_breaks_cases (doc : List PMNode) (measure : Nat → Nat) (effH : Int)
    (s : FoldState) (np : PMNode × Nat) :
    (visit doc measure effH s np).breaks = s.breaks ∨
    (visit doc measure effH s np).breaks = s.breaks ++ [np.2] ∨
    ((visit doc measure effH s np).breaks = s.breaks ++ [s.listStartPos] ∧
      s.lastNodeWasList = true) := by
  rcases np with ⟨n, pos⟩
  rcases (Bool.eq_false_or_eq_true (relevantPred measure (n, pos))).symm with hrel | hrel
  · left; rw [visit_skip doc measure effH s (n, pos) hrel]
  · have hrel' : n.isBlock = true ∧ ¬ measure pos = 0 := by
      simpa [relevantPred] using hrel
    have hb := hrel'.1
    have hh := hrel'.2
    rcases (Bool.eq_false_or_eq_true (isListRelatedName n.typeName)).symm with hl | hl
    · by_cases hov : effH < (s.currentPageHeight : Int) + (measure pos : Int)
      · right; left
        rw [visit_nonlist_break doc measure effH s n pos hb hh hl hov]
      · left; rw [visit_nonlist_fit doc measure effH s n pos hb hh hl hov]
    · rcases (Bool.eq_false_or_eq_true s.lastNodeWasList).symm with hlast | hlast
      · rcases (Bool.eq_false_or_eq_true
            (isLastFromOpt (nodeAtList doc (pos + n.nodeSize)))).symm with hcl | hcl
        · left
          rw [visit_list_open_fresh doc measure effH s n pos hb hh hl hlast hcl]
        · by_cases hov : effH < (s.currentPageHeight : Int) + (measure pos : Int)
          · right; left
            rw [visit_list_close_break_fresh doc measure effH s n pos hb hh hl hlast hcl hov]
          · left
            rw [visit_list_close_fit_fresh doc measure effH s n pos hb hh hl hlast hcl hov]
      · rcases (Bool.eq_false_or_eq_true
            (isLastFromOpt (nodeAtList doc (pos + n.nodeSize)))).symm with hcl | hcl
        · left
          rw [visit_list_open_cont doc measure effH s n pos hb hh hl hlast hcl]
        · by_cases hov : effH < (s.currentPageHeight : Int) +
              ((s.currentListHeight : Int) + (measure pos : Int))
          · right; right
            refine ⟨?_, hlast⟩
            rw [visit_list_close_break_cont doc measure effH s n pos hb hh hl hlast hcl hov]
          · left
            rw [visit_list_close_fit_cont doc measure effH s n pos hb hh hl hlast hcl hov]

/-- When a step leaves the accumulation open, its start is the node's own
position or was already the open start. -/
theorem visit_open_cases (doc : List PMNode) (measure : Nat → Nat) (effH : Int)
    (s : FoldState) (np : PMNode × Nat)
    (h : (visit doc measure effH s np).lastNodeWasList = true) :
    (visit doc measure effH s np).listStartPos = np.2 ∨
    ((visit doc measure effH s np).listStartPos = s.listStartPos ∧
      s.lastNodeWasList = true) := by
  rcases np with ⟨n, pos⟩
  rcases (Bool.eq_false_or_eq_true (relevantPred measure (n, pos))).symm with hrel | hrel
  · rw [visit_skip doc measure effH s (n, pos) hrel] at h ⊢
    right; exact ⟨rfl, h⟩
  · have hrel' : n.isBlock = true ∧ ¬ measure pos = 0 := by
      simpa [relevantPred] using hrel
    have hb := hrel'.1
    have hh := hrel'.2
    rcases (Bool.eq_false_or_eq_true (isListRelatedName n.typeName)).symm with hl | hl
    · by_cases hov : effH < (s.currentPageHeight : Int) + (measure pos : Int)
      · rw [visit_nonlist_break doc measure effH s n pos hb hh hl hov] at h
        simp at h
      · rw [visit_nonlist_fit doc measure effH s n pos hb hh hl hov] at h
        simp at h
    · rcases (Bool.eq_false_or_eq_true s.lastNodeWasList).symm with hlast | hlast
      · rcases (Bool.eq_false_or_eq_true
            (isLastFromOpt (nodeAtList doc (pos + n.nodeSize)))).symm with hcl | hcl
        · left
          rw [visit_list_open_fresh doc measure effH s n pos hb hh hl hlast hcl]
        · by_cases hov : effH < (s.currentPageHeight : Int) + (measure pos : Int)
          · rw [visit_list_close_break_fresh doc measure effH s n pos hb hh hl hlast hcl hov] at h
            simp at h
          · rw [visit_list_close_fit_fresh doc measure effH s n pos hb hh hl hlast hcl hov] at h
            simp at h
      · rcases (Bool.eq_false_or_eq_true
            (isLastFromOpt (nodeAtList doc (pos + n.nodeSize)))).symm with hcl | hcl
        · right
          rw [visit_list_open_cont doc measure effH s n pos hb hh hl hlast hcl]
          exact ⟨rfl, hlast⟩
        · by_cases hov : effH < (s.currentPageHeight : Int) +
              ((s.currentListHeight : Int) + (measure pos : Int))
          · rw [visit_list_close_break_cont doc measure effH s n pos hb hh hl hlast hcl hov] at h
            simp at h
          · rw [visit_list_close_fit_cont doc measure effH s n pos hb hh hl hlast hcl hov] at h
            simp at h

/-- Folding the callback only ever appends to the emitted break list. -/
theorem foldl_visit_extend (doc : List PMNode) (measure : Nat → Nat) (effH : Int) :
    ∀ (L : List (PMNode × Nat)) (s : FoldState),
      ∃ t, (List.foldl (visit doc measure effH) s L).breaks = s.breaks ++ t := by
  intro L
  induction L with
  | nil => intro s; exact ⟨[], by simp⟩
  | cons x L ih =>
    intro s
    obtain ⟨t, ht⟩ := ih (visit doc measure effH s x)
    rcases visit_breaks_cases doc measure effH s x with h | h | ⟨h, _⟩
    · exact ⟨t, by rw [List.foldl_cons, ht, h]⟩
    · exact ⟨x.2 :: t, by rw [List.foldl_cons, ht, h]; simp⟩
    · exact ⟨s.listStartPos :: t, by rw [List.foldl_cons, ht, h]; simp⟩

/-- Every break present after folding a segment was already present
before, or is the position of a node of the segment, or is the start of
the accumulation that was open when the segment began. -/
theorem foldl_visit_mem (doc : List PMNode) (measure : Nat → Nat) (effH : Int) :
    ∀ (L : List (PMNode × Nat)) (s : FoldState) (b : Nat),
      b ∈ (List.foldl (visit doc measure effH) s L).breaks →
      b ∈ s.breaks ∨ (∃ x ∈ L, x.2 = b) ∨
        (s.lastNodeWasList = true ∧ b = s.listStartPos) := by
  intro L
  induction L with
  | nil => intro s b hb; left; simpa using hb
  | cons x L ih =>
    intro s b hb
    rw [List.foldl_cons] at hb
    rcases ih (visit doc measure effH s x) b hb with h | h | ⟨hopen, hlsp⟩
    · rcases visit_breaks_cases doc measure effH s x with hc | hc | ⟨hc, hl⟩
      · rw [hc] at h; left; exact h
      · rw [hc] at h
        rcases List.mem_append.1 h with h' | h'
        · left; exact h'
        · right; left
          exact ⟨x, List.mem_cons_self x L, (List.mem_singleton.1 h').symm⟩
      · rw [hc] at h
        rcases List.mem_append.1 h with h' | h'
        · left; exact h'
        · right; right; exact ⟨hl, List.mem_singleton.1 h'⟩
    · right; left
      obtain ⟨y, hy, hyb⟩ := h
      exact ⟨y, List.mem_cons_of_mem x hy, hyb⟩
    · rcases visit_open_cases doc measure effH s x hopen with h' | ⟨h', hl⟩
      · right; left
        exact ⟨x, List.mem_cons_self x L, by rw [h'] at hlsp; exact hlsp.symm⟩
      · right; right; exact ⟨hl, by rw [h'] at hlsp; exact hlsp⟩

theorem goodState_mono (s : FoldState) (lo lo' : Nat)
    (hg : GoodState s lo) (h : lo ≤ lo') : GoodState s lo' := by
  obtain ⟨h1, h2, h3⟩ := hg
  exact ⟨h1, fun b hb => lt_of_lt_of_le (h2 b hb) h,
    fun hl => ⟨lt_of_lt_of_le (h3 hl).1 h, (h3 hl).2⟩⟩

/-- One step preserves the traversal invariant, for any strictly larger
future lower bound. -/
theorem visit_good (doc : List PMNode) (measure : Nat → Nat) (effH : Int)
    (s : FoldState) (n : PMNode) (pos lo' : Nat)
    (hg : GoodState s pos) (hlt : pos < lo') :
    GoodState (visit doc measure effH s (n, pos)) lo' := by
  obtain ⟨hpw, hbd, hopen⟩ := hg
  have happ : (s.breaks ++ [pos]).Pairwise (· < ·) := by
    rw [List.pairwise_append]
    refine ⟨hpw, List.pairwise_singleton _ _, fun a ha b hb => ?_⟩
    rw [List.mem_singleton.1 hb]
    exact hbd a ha
  have hbd' : ∀ b ∈ s.breaks ++ [pos], b < lo' := by
    intro b hb
    rcases List.mem_append.1 hb with h | h
    · exact lt_trans (hbd b h) hlt
    · rw [List.mem_singleton.1 h]; exact hlt
  rcases (Bool.eq_false_or_eq_true (relevantPred measure (n, pos))).symm with hrel | hrel
  · rw [visit_skip doc measure effH s (n, pos) hrel]
    exact goodState_mono s pos lo' ⟨hpw, hbd, hopen⟩ (Nat.le_of_lt hlt)
  · have hrel' : n.isBlock = true ∧ ¬ measure pos = 0 := by
      simpa [relevantPred] using hrel
    have hb := hrel'.1
    have hh := hrel'.2
    rcases (Bool.eq_false_or_eq_true (isListRelatedName n.typeName)).symm with hl | hl
    · by_cases hov : effH < (s.currentPageHeight : Int) + (measure pos : Int)
      · rw [visit_nonlist_break doc measure effH s n pos hb hh hl hov]
        exact ⟨happ, hbd', by intro h; simp at h⟩
      · rw [visit_nonlist_fit doc measure effH s n pos hb hh hl hov]
        exact ⟨hpw, fun b hb' => lt_trans (hbd b hb') hlt, by intro h; simp at h⟩
    · rcases (Bool.eq_false_or_eq_true s.lastNodeWasList).symm with hlast | hlast
      · rcases (Bool.eq_false_or_eq_true
            (isLastFromOpt (nodeAtList doc (pos + n.nodeSize)))).symm with hcl | hcl
        · rw [visit_list_open_fresh doc measure effH s n pos hb hh hl hlast hcl]
          exact ⟨hpw, fun b hb' => lt_trans (hbd b hb') hlt,
            fun _ => ⟨hlt, fun b hb' => hbd b hb'⟩⟩
        · by_cases hov : effH < (s.currentPageHeight : Int) + (measure pos : Int)
          · rw [visit_list_close_break_fresh doc measure effH s n pos hb hh hl hlast hcl hov]
            exact ⟨happ, hbd', by intro h; simp at h⟩
          · rw [visit_list_close_fit_fresh doc measure effH s n pos hb hh hl hlast hcl hov]
            exact ⟨hpw, fun b hb' => lt_trans (hbd b hb') hlt, by intro h; simp at h⟩
      · have hsp := hopen hlast
        rcases (Bool.eq_false_or_eq_true
            (isLastFromOpt (nodeAtList doc (pos + n.nodeSize)))).symm with hcl | hcl
        · rw [visit_list_open_cont doc measure effH s n pos hb hh hl hlast hcl]
          exact ⟨hpw, fun b hb' => lt_trans (hbd b hb') hlt,
            fun _ => ⟨lt_trans hsp.1 hlt, hsp.2⟩⟩
        · by_cases hov : effH < (s.currentPageHeight : Int) +
              ((s.currentListHeight : Int) + (measure pos : Int))
          · rw [visit_list_close_break_cont doc measure effH s n pos hb hh hl hlast hcl hov]
            refine ⟨?_, ?_, by intro h; simp at h⟩
            · rw [List.pairwise_append]
              refine ⟨hpw, List.pairwise_singleton _ _, fun a ha b hb' => ?_⟩
              rw [List.mem_singleton.1 hb']
              exact hsp.2 a ha
            · intro b hb'
              rcases List.mem_append.1 hb' with h | h
              · exact lt_trans (hbd b h) hlt
              · rw [List.mem_singleton.1 h]
                exact lt_trans hsp.1 hlt
          · rw [visit_list_close_fit_cont doc measure effH s n pos hb hh hl hlast hcl hov]
            exact ⟨hpw, fun b hb' => lt_trans (hbd b hb') hlt, by intro h; simp at h⟩

/-- Folding the whole traversal from a good state over nodes at strictly
increasing positions keeps the emitted break list strictly increasing. -/
theorem foldl_visit_good (doc : List PMNode) (measure : Nat → Nat) (effH : Int) :
    ∀ (L : List (PMNode × Nat)) (s : FoldState) (lo : Nat),
      GoodState s lo → (∀ x ∈ L, lo ≤ x.2) →
      L.Pairwise (fun a b => a.2 < b.2) →
      (List.foldl (visit doc measure effH) s L).breaks.Pairwise (· < ·) := by
  intro L
  induction L with
  | nil => intro s lo hg _ _; exact hg.1
  | cons x L ih =>
    intro s lo hg hlo hpw
    rw [List.foldl_cons]
    have hg1 : GoodState s x.2 :=
      goodState_mono s lo x.2 hg (hlo x (List.mem_cons_self x L))
    have hg2 : GoodState (visit doc measure effH s x) (x.2 + 1) := by
      rcases x with ⟨n, pos⟩
      exact visit_good doc measure effH s n pos (pos + 1) hg1 (Nat.lt_succ_self pos)
    refine ih (visit doc measure effH s x) (x.2 + 1) hg2 ?_ (List.pairwise_cons.1 hpw).2
    intro y hy
    exact Nat.succ_le_of_lt ((List.pairwise_cons.1 hpw).1 y hy)

-- Positions of the depth-first traversal are strictly increasing and lie
-- within the span of the traversed fragment.
mutual
theorem descendantsNode_bounds (n : PMNode) (pos : Nat) :
    (descendantsNode n pos).Pairwise (fun a b => a.2 < b.2) ∧
    ∀ x ∈ descendantsNode n pos, pos ≤ x.2 ∧ x.2 < pos + n.nodeSize := by
  match n with
  | .text lenPred =>
    refine ⟨List.pairwise_singleton _ _, ?_⟩
    intro x hx
    simp only [descendantsNode, List.mem_singleton] at hx
    subst hx
    refine ⟨Nat.le_refl _, ?_⟩
    simp only [PMNode.nodeSize]
    omega
  | .elem t b children =>
    have ih := descendantsList_bounds children (pos + 1)
    constructor
    · simp only [descendantsNode, List.pairwise_cons]
      refine ⟨fun x hx => ?_, ih.1⟩
      have := ih.2 x hx
      omega
    · intro x hx
      simp only [descendantsNode, List.mem_cons] at hx
      rcases hx with h | h
      · rw [h]
        refine ⟨Nat.le_refl _, ?_⟩
        simp only [PMNode.nodeSize]
        omega
      · have := ih.2 x h
        simp only [PMNode.nodeSize]
        omega
theorem descendantsList_bounds (l : List PMNode) (pos : Nat) :
    (descendantsList l pos).Pairwise (fun a b => a.2 < b.2) ∧
    ∀ x ∈ descendantsList l pos, pos ≤ x.2 ∧ x.2 < pos + fragmentSize l := by
  match l with
  | [] => simp [descendantsList]
  | n :: ns =>
    have ih1 := descendantsNode_bounds n pos
    have ih2 := descendantsList_bounds ns (pos + n.nodeSize)
    constructor
    · rw [descendantsList, List.pairwise_append]
      refine ⟨ih1.1, ih2.1, fun a ha b hb => ?_⟩
      have h1 := ih1.2 a ha
      have h2 := ih2.2 b hb
      omega
    · intro x hx
      rw [descendantsList, List.mem_append] at hx
      rcases hx with h | h
      · have := ih1.2 x h
        simp only [fragmentSize]
        omega
      · have := ih2.2 x h
        simp only [fragmentSize]
        omega
end

theorem initState_good : GoodState initState 0 := by
  refine ⟨List.Pairwise.nil, ?_, ?_⟩ <;> simp [initState]

/-- C5, confirmed: the break positions returned by the decorations
computation are strictly increasing in emission order. -/
theorem c5_breaks_strict_mono (doc : List PMNode) (measure : Nat → Nat)
    (o : PaginationOptions) :
    (computeBreaks doc measure o).Pairwise (· < ·) := by
  unfold computeBreaks
  exact foldl_visit_good doc measure (effectivePageHeight o)
    (descendantsList doc 0) initState 0 initState_good
    (fun x _ => Nat.zero_le _) (descendantsList_bounds doc 0).1

/-- Nodes that are skipped can be dropped from the traversal without
changing the fold. -/
theorem foldl_visit_filter (doc : List PMNode) (measure : Nat → Nat) (effH : Int) :
    ∀ (L : List (PMNode × Nat)) (s : FoldState),
      List.foldl (visit doc measure effH) s L =
        List.foldl (visit doc measure effH) s (L.filter (relevantPred measure)) := by
  intro L
  induction L with
  | nil => intro s; rfl
  | cons x L ih =>
    intro s
    rcases (Bool.eq_false_or_eq_true (relevantPred measure x)).symm with hrel | hrel
    · have hf : (x :: L).filter (relevantPred measure) = L.filter (relevantPred measure) := by
        simp [List.filter_cons, hrel]
      rw [List.foldl_cons, visit_skip doc measure effH s x hrel, hf, ih]
    · have hf : (x :: L).filter (relevantPred measure) =
          x :: L.filter (relevantPred measure) := by
        simp [List.filter_cons, hrel]
      rw [hf, List.foldl_cons, List.foldl_cons, ih]

/-- C3, amended: every emitted break position is the starting position of
some visited block node of nonzero measured height.  The original claim
additionally asserted that no break falls strictly inside the span of a
non-list node or of an accumulated list group, which fails for nested
block nodes (see the counterexample). -/
theorem c3_breaks_at_node_starts (doc : List PMNode) (measure : Nat → Nat)
    (o : PaginationOptions) (b : Nat)
    (hb : b ∈ computeBreaks doc measure o) :
    ∃ x ∈ descendantsList doc 0, x.2 = b ∧ x.1.isBlock = true ∧ measure x.2 ≠ 0 := by
  unfold computeBreaks at hb
  rw [foldl_visit_filter doc measure (effectivePageHeight o) (descendantsList doc 0)
    initState] at hb
  rcases foldl_visit_mem doc measure (effectivePageHeight o)
      ((descendantsList doc 0).filter (relevantPred measure)) initState b hb with
    h | h | ⟨hopen, _⟩
  · simp [initState] at h
  · obtain ⟨x, hx, hxb⟩ := h
    have hx' := List.mem_filter.1 hx
    have hrel : x.1.isBlock = true ∧ ¬ measure x.2 = 0 := by
      simpa [relevantPred] using hx'.2
    exact ⟨x, hx'.1, hxb, hrel.1, hrel.2⟩
  · simp [initState] at hopen

theorem c3_breaks_at_node_starts_witness :
    ∃ x ∈ descendantsList tallFirstDoc 0,
      x.2 = 0 ∧ x.1.isBlock = true ∧ tallFirstMeasure x.2 ≠ 0 :=
  c3_breaks_at_node_starts tallFirstDoc tallFirstMeasure defaultOptions 0 (by decide)

/-- C3, counterexample to the original claim: with the default
configuration, the blockquote document gets its single break at position
1, which lies strictly inside the span 0..4 of the non-list blockquote
node visited at position 0. -/
theorem c3_nested_span_counterexample :
    computeBreaks blockquoteDoc blockquoteMeasure defaultOptions = [1] ∧
    descendantsList blockquoteDoc 0 =
      [(.elem "blockquote" true [paragraphNode], 0), (paragraphNode, 1)] ∧
    isListRelatedName (PMNode.elem "blockquote" true [paragraphNode]).typeName = false ∧
    0 < 1 ∧ 1 < 0 + (PMNode.elem "blockquote" true [paragraphNode]).nodeSize :=
  ⟨by decide, rfl, by decide, by decide, by decide⟩

/-- C2, amended: no break is ever emitted strictly before the first
visited block node of nonzero height, but when that first node is an
ordinary non-list block whose height alone exceeds the effective page
height, a break IS emitted exactly at its position (the claimed
first-content exemption does not exist in the code): the break at the
first relevant node exists if and only if its height overflows. -/
theorem c2_first_node_break (doc : List PMNode) (measure : Nat → Nat)
    (o : PaginationOptions) (n : PMNode) (p : Nat) (R' : List (PMNode × Nat))
    (hR : (descendantsList doc 0).filter (relevantPred measure) = (n, p) :: R')
    (hnl : isListRelatedName n.typeName = false) :
    (p ∈ computeBreaks doc measure o ↔
      effectivePageHeight o < (measure p : Int)) ∧
    ∀ b ∈ computeBreaks doc measure o, p ≤ b := by
  have hmem : (n, p) ∈ (descendantsList doc 0).filter (relevantPred measure) := by
    rw [hR]; exact List.mem_cons_self _ _
  have hrel : n.isBlock = true ∧ ¬ measure p = 0 := by
    simpa [relevantPred] using (List.mem_filter.1 hmem).2
  have hpos : ∀ y ∈ R', p < y.2 := by
    have hpw : ((descendantsList doc 0).filter (relevantPred measure)).Pairwise
        (fun a b => a.2 < b.2) :=
      List.Pairwise.sublist (List.filter_sublist _) (descendantsList_bounds doc 0).1
    rw [hR] at hpw
    exact fun y hy => (List.pairwise_cons.1 hpw).1 y hy
  have hfold : computeBreaks doc measure o =
      (List.foldl (visit doc measure (effectivePageHeight o))
        (visit doc measure (effectivePageHeight o) initState (n, p)) R').breaks := by
    unfold computeBreaks
    rw [foldl_visit_filter doc measure (effectivePageHeight o) (descendantsList doc 0)
      initState, hR, List.foldl_cons]
  by_cases hov : effectivePageHeight o < (measure p : Int)
  · have hov' : effectivePageHeight o <
        (initState.currentPageHeight : Int) + (measure p : Int) := by
      simpa [initState] using hov
    have hstep := visit_nonlist_break doc measure (effectivePageHeight o) initState n p
      hrel.1 hrel.2 hnl hov'
    constructor
    · constructor
      · intro _; exact hov
      · intro _
        rw [hfold, hstep]
        obtain ⟨t, ht⟩ := foldl_visit_extend doc measure (effectivePageHeight o) R'
          { breaks := initState.breaks ++ [p], currentPageHeight := measure p,
            lastNodeWasList := false, currentListHeight := initState.currentListHeight,
            listStartPos := initState.listStartPos }
        rw [ht]
        simp [initState]
    · intro b hb
      rw [hfold] at hb
      rcases foldl_visit_mem doc measure (effectivePageHeight o) R' _ b hb with
        h | h | ⟨hopen, _⟩
      · rw [hstep] at h
        simp [initState] at h
        omega
      · obtain ⟨y, hy, hyb⟩ := h
        exact Nat.le_of_lt (hyb ▸ hpos y hy)
      · rw [hstep] at hopen
        simp at hopen
  · have hov' : ¬ effectivePageHeight o <
        (initState.currentPageHeight : Int) + (measure p : Int) := by
      simpa [initState] using hov
    have hstep := visit_nonlist_fit doc measure (effectivePageHeight o) initState n p
      hrel.1 hrel.2 hnl hov'
    constructor
    · constructor
      · intro hmem'
        rw [hfold] at hmem'
        rcases foldl_visit_mem doc measure (effectivePageHeight o) R' _ p hmem' with
          h | h | ⟨hopen, _⟩
        · rw [hstep] at h
          simp [initState] at h
        · obtain ⟨y, hy, hyb⟩ := h
          exact absurd (hyb ▸ hpos y hy) (lt_irrefl p)
        · rw [hstep] at hopen
          simp at hopen
      · intro h; exact absurd h hov
    · intro b hb
      rw [hfold] at hb
      rcases foldl_visit_mem doc measure (effectivePageHeight o) R' _ b hb with
        h | h | ⟨hopen, _⟩
      · rw [hstep] at h
        simp [initState] at h
      · obtain ⟨y, hy, hyb⟩ := h
        exact Nat.le_of_lt (hyb ▸ hpos y hy)
      · rw [hstep] at hopen
        simp at hopen

theorem c2_first_node_break_witness :
    (0 ∈ computeBreaks tallFirstDoc tallFirstMeasure defaultOptions ↔
      effectivePageHeight defaultOptions < (tallFirstMeasure 0 : Int)) ∧
    ∀ b ∈ computeBreaks tallFirstDoc tallFirstMeasure defaultOptions, 0 ≤ b :=
  c2_first_node_break tallFirstDoc tallFirstMeasure defaultOptions
    paragraphNode 0 [] rfl rfl

/-- C2, counterexample to the original claim: the very first visited block
node measures 900, more than the effective page height 864, and a break IS
emitted at its position 0 (the claim said none may appear at or before
it). -/
theorem c2_first_overflow_counterexample :
    computeBreaks tallFirstDoc tallFirstMeasure defaultOptions = [0] ∧
    (descendantsList tallFirstDoc 0).filter (relevantPred tallFirstMeasure) =
      [(paragraphNode, 0)] ∧
    effectivePageHeight defaultOptions < (tallFirstMeasure 0 : Int) :=
  ⟨by decide, rfl, by decide⟩

/-- Under a degenerate configuration every relevant non-list node breaks,
because any positive height already exceeds the non-positive capacity. -/
theorem foldl_visit_degenerate (doc : List PMNode) (measure : Nat → Nat) (effH : Int)
    (heff : effH ≤ 0) :
    ∀ (L : List (PMNode × Nat)) (s : FoldState) (n : PMNode) (p : Nat),
      (n, p) ∈ L → n.isBlock = true → measure p ≠ 0 →
      isListRelatedName n.typeName = false →
      p ∈ (List.foldl (visit doc measure effH) s L).breaks := by
  intro L
  induction L with
  | nil => intro s n p h; simp at h
  | cons x L ih =>
    intro s n p hmem hb hh hnl
    rw [List.foldl_cons]
    rcases List.mem_cons.1 hmem with heq | hmem'
    · have hov : effH < (s.currentPageHeight : Int) + (measure p : Int) := by
        have h1 : 1 ≤ measure p := Nat.one_le_iff_ne_zero.2 hh
        have h1' : (1 : Int) ≤ (measure p : Int) := by exact_mod_cast h1
        have h0 : (0 : Int) ≤ (s.currentPageHeight : Int) := Int.natCast_nonneg _
        omega
      rw [← heq]
      rw [visit_nonlist_break doc measure effH s n p hb hh hnl hov]
      obtain ⟨t, ht⟩ := foldl_visit_extend doc measure effH L
        { breaks := s.breaks ++ [p], currentPageHeight := measure p,
          lastNodeWasList := false, currentListHeight := s.currentListHeight,
          listStartPos := s.listStartPos }
      rw [ht]
      simp
    · exact ih (visit doc measure effH s x) n p hmem' hb hh hnl

/-- C9, amended: a degenerate configuration (effective page height at most
0) is not rejected: the computation still runs and emits a break at the
position of every visited NON-LIST block node of positive measured height,
the first node included (no first-content exemption).  A list run whose
accumulation is abandoned before its closure test can receive no break at
all, so the original "every node or list group" does not hold (see the
counterexample). -/
theorem c9_degenerate_breaks_everywhere (doc : List PMNode) (measure : Nat → Nat)
    (o : PaginationOptions) (heff : effectivePageHeight o ≤ 0)
    (n : PMNode) (p : Nat)
    (hmem : (n, p) ∈ descendantsList doc 0)
    (hb : n.isBlock = true) (hh : measure p ≠ 0)
    (hnl : isListRelatedName n.typeName = false) :
    p ∈ computeBreaks doc measure o := by
  unfold computeBreaks
  exact foldl_visit_degenerate doc measure (effectivePageHeight o) heff
    (descendantsList doc 0) initState n p hmem hb hh hnl

theorem c9_degenerate_breaks_everywhere_witness :
    6 ∈ computeBreaks danglingListDoc danglingListMeasure degenerateOptions :=
  c9_degenerate_breaks_everywhere danglingListDoc danglingListMeasure degenerateOptions
    (by decide) paragraphNode 6
    (by rw [show descendantsList danglingListDoc 0 =
        [(paragraphNode, 0), (listItemNode, 2), (listItemNode, 4), (paragraphNode, 6)]
        from rfl]
        simp)
    rfl (by decide) rfl

/-- C9, counterexample to the original claim: under the degenerate
configuration the list item visited at position 2 has positive height 100,
yet no break is ever emitted at its position, because its accumulation
stays open (nodeAt sees the zero-height item at 4) and is then silently
discarded when the closing paragraph is processed. -/
theorem c9_dangling_list_counterexample :
    effectivePageHeight degenerateOptions ≤ 0 ∧
    computeBreaks danglingListDoc danglingListMeasure degenerateOptions = [0, 6] ∧
    2 ∉ computeBreaks danglingListDoc danglingListMeasure degenerateOptions ∧
    descendantsList danglingListDoc 0 =
      [(paragraphNode, 0), (listItemNode, 2), (listItemNode, 4), (paragraphNode, 6)] ∧
    danglingListMeasure 2 = 100 :=
  ⟨by decide, by decide, by decide, rfl, rfl⟩

theorem renderBreaksAux_length : ∀ (ps : List Nat) (c : Nat),
    (renderBreaksAux c ps).length = ps.length := by
  intro ps
  induction ps with
  | nil => intro c; rfl
  | cons p ps ih => intro c; simp [renderBreaksAux, ih]

theorem renderBreaksAux_get : ∀ (ps : List Nat) (c i : Nat)
    (h : i < (renderBreaksAux c ps).length),
    ((renderBreaksAux c ps).get ⟨i, h⟩).pageNumberLabel = c + i := by
  intro ps
  induction ps with
  | nil => intro c i h; simp [renderBreaksAux] at h
  | cons p ps ih =>
    intro c i h
    cases i with
    | zero => rfl
    | succ i =>
      have h' : i < (renderBreaksAux (c + 1) ps).length := by
        simpa [renderBreaksAux] using h
      simp only [renderBreaksAux, List.get_cons_succ]
      rw [ih (c + 1) i h']
      omega

/-- C4, amended: in the numeric scenario (pageHeight 1056, pageMargin 96,
heights 500, 500, 100) exactly one break is emitted, at the second node's
position 2; but its widget renders page-number label 1, not 2: in general
the k-th emitted BreakPoint carries label k (the render counter starts at
1 and increments after each widget), that is, the 0-based i-th carries
i + 1 only in the sense that the FIRST carries 1. -/
theorem c4_scenario_and_labels :
    computeBreakPoints scenarioDoc scenarioMeasure defaultOptions =
      [{ position := 2, pageNumberLabel := 1 }] ∧
    ∀ (doc : List PMNode) (measure : Nat → Nat) (o : PaginationOptions) (i : Nat)
      (h : i < (computeBreakPoints doc measure o).length),
      ((computeBreakPoints doc measure o).get ⟨i, h⟩).pageNumberLabel = i + 1 := by
  constructor
  · decide
  · intro doc measure o i h
    show ((renderBreaksAux 1 (computeBreaks doc measure o)).get ⟨i, h⟩).pageNumberLabel
      = i + 1
    rw [renderBreaksAux_get (computeBreaks doc measure o) 1 i h]
    omega

theorem c4_scenario_and_labels_witness :
    0 < (computeBreakPoints scenarioDoc scenarioMeasure defaultOptions).length ∧
    ((computeBreakPoints scenarioDoc scenarioMeasure defaultOptions).get
      ⟨0, by decide⟩).pageNumberLabel = 0 + 1 :=
  ⟨by decide,
    c4_scenario_and_labels.2 scenarioDoc scenarioMeasure defaultOptions 0 (by decide)⟩

/-- C4, counterexample to the original claim: the single break of the
numeric scenario carries page-number label 1, not 2 (the render counter
starts at 1 and is incremented only after the widget is built). -/
theorem c4_label_counterexample :
    computeBreakPoints scenarioDoc scenarioMeasure defaultOptions =
      [{ position := 2, pageNumberLabel := 1 }] ∧
    ∀ bp ∈ computeBreakPoints scenarioDoc scenarioMeasure defaultOptions,
      bp.pageNumberLabel ≠ 2 :=
  ⟨by decide, by decide⟩

/-- On documents all of whose visited nodes are relevant non-list blocks,
the two decoration computations take identical steps. -/
theorem c10_fold_agree (doc : List PMNode) (measure : Nat → Nat) (effH : Int) :
    ∀ (L : List (PMNode × Nat)) (s : FoldState),
      (∀ x ∈ L, x.1.isBlock = true ∧ isListRelatedName x.1.typeName = false ∧
        0 < measure x.2) →
      (List.foldl (visit doc measure effH) s L).breaks =
        (List.foldl (visitSimple measure effH) (s.breaks, s.currentPageHeight) L).1 := by
  intro L
  induction L with
  | nil => intro s _; rfl
  | cons x L ih =>
    intro s hall
    obtain ⟨hb, hnl, hpos⟩ := hall x (List.mem_cons_self x L)
    have hh : measure x.2 ≠ 0 := Nat.pos_iff_ne_zero.1 hpos
    rcases x with ⟨n, p⟩
    rw [List.foldl_cons, List.foldl_cons]
    by_cases hov : effH < (s.currentPageHeight : Int) + (measure p : Int)
    · rw [visit_nonlist_break doc measure effH s n p hb hh hnl hov]
      have hsimple : visitSimple measure effH (s.breaks, s.currentPageHeight) (n, p) =
          (s.breaks ++ [p], measure p) := by
        simp [visitSimple, hb, hov]
      rw [hsimple]
      exact ih
        { breaks := s.breaks ++ [p], currentPageHeight := measure p,
          lastNodeWasList := false, currentListHeight := s.currentListHeight,
          listStartPos := s.listStartPos }
        (fun y hy => hall y (List.mem_cons_of_mem _ hy))
    · rw [visit_nonlist_fit doc measure effH s n p hb hh hnl hov]
      have hsimple : visitSimple measure effH (s.breaks, s.currentPageHeight) (n, p) =
          (s.breaks, s.currentPageHeight + measure p) := by
        simp [visitSimple, hb, hov]
      rw [hsimple]
      exact ih
        { breaks := s.breaks, currentPageHeight := s.currentPageHeight + measure p,
          lastNodeWasList := false, currentListHeight := s.currentListHeight,
          listStartPos := s.listStartPos }
        (fun y hy => hall y (List.mem_cons_of_mem _ hy))

/-- C10, amended: the main decorations computation and the duplicated
simpler one after it agree exactly on documents all of whose visited nodes
are non-list block nodes of positive measured height; with list-related
nodes (or zero-height nodes after an oversized one) they diverge, see the
counterexample. -/
theorem c10_variants_agree (doc : List PMNode) (measure : Nat → Nat)
    (o : PaginationOptions)
    (hall : ∀ x ∈ descendantsList doc 0, x.1.isBlock = true ∧
      isListRelatedName x.1.typeName = false ∧ 0 < measure x.2) :
    computeBreaks doc measure o = computeBreaksSimple doc measure o :=
  c10_fold_agree doc measure (effectivePageHeight o) (descendantsList doc 0)
    initState hall

theorem c10_variants_agree_witness :
    computeBreaks scenarioDoc scenarioMeasure defaultOptions =
      computeBreaksSimple scenarioDoc scenarioMeasure defaultOptions :=
  c10_variants_agree scenarioDoc scenarioMeasure defaultOptions (by decide)

/-- C10, counterexample to the original claim: on a paragraph followed by
two sibling list items the main variant breaks at the accumulated run's
start 2, the duplicated variant at the overflowing item 4. -/
theorem c10_variants_counterexample :
    computeBreaks mixedListDoc mixedListMeasure defaultOptions = [2] ∧
    computeBreaksSimple mixedListDoc mixedListMeasure defaultOptions = [4] ∧
    computeBreaks mixedListDoc mixedListMeasure defaultOptions ≠
      computeBreaksSimple mixedListDoc mixedListMeasure defaultOptions :=
  ⟨by decide, by decide, by decide⟩

theorem fragmentSize_append : ∀ (xs ys : List PMNode),
    fragmentSize (xs ++ ys) = fragmentSize xs + fragmentSize ys := by
  intro xs ys
  induction xs with
  | nil => simp [fragmentSize]
  | cons x xs ih =>
    rw [List.cons_append]
    rw [show fragmentSize (x :: (xs ++ ys)) = x.nodeSize + fragmentSize (xs ++ ys) from rfl]
    rw [show fragmentSize (x :: xs) = x.nodeSize + fragmentSize xs from rfl]
    rw [ih]
    omega

theorem descendantsList_append : ∀ (xs ys : List PMNode) (p : Nat),
    descendantsList (xs ++ ys) p =
      descendantsList xs p ++ descendantsList ys (p + fragmentSize xs) := by
  intro xs
  induction xs with
  | nil => intro ys p; simp [descendantsList, fragmentSize]
  | cons x xs ih =>
    intro ys p
    rw [List.cons_append]
    rw [show descendantsList (x :: (xs ++ ys)) p
      = descendantsNode x p ++ descendantsList (xs ++ ys) (p + x.nodeSize) from rfl]
    rw [show descendantsList (x :: xs) p
      = descendantsNode x p ++ descendantsList xs (p + x.nodeSize) from rfl]
    rw [ih ys (p + x.nodeSize)]
    rw [show fragmentSize (x :: xs) = x.nodeSize + fragmentSize xs from rfl]
    rw [List.append_assoc]
    rw [show p + x.nodeSize + fragmentSize xs = p + (x.nodeSize + fragmentSize xs) from by omega]

theorem nodeAtList_append_right : ∀ (xs ys : List PMNode) (r : Nat),
    nodeAtList (xs ++ ys) (fragmentSize xs + r) = nodeAtList ys r := by
  intro xs
  induction xs with
  | nil => intro ys r; simp [fragmentSize]
  | cons x xs ih =>
    intro ys r
    have hge : ¬ x.nodeSize + fragmentSize xs + r < x.nodeSize := by omega
    simp only [List.cons_append, nodeAtList, fragmentSize, hge, if_false]
    rw [show x.nodeSize + fragmentSize xs + r - x.nodeSize = fragmentSize xs + r from by omega]
    exact ih ys r

theorem listItemNode_nodeSize : listItemNode.nodeSize = 2 := rfl

theorem nodeAtList_replicate_item : ∀ (k i : Nat) (post : List PMNode), i < k →
    nodeAtList (List.replicate k listItemNode ++ post) (2 * i) = some listItemNode := by
  intro k
  induction k with
  | zero => intro i post h; omega
  | succ k ih =>
    intro i post h
    rw [List.replicate_succ, List.cons_append]
    cases i with
    | zero => rfl
    | succ i =>
      have hge : ¬ 2 * (i + 1) < listItemNode.nodeSize := by
        rw [listItemNode_nodeSize]; omega
      simp only [nodeAtList, hge, if_false]
      rw [show 2 * (i + 1) - listItemNode.nodeSize = 2 * i from by
        rw [listItemNode_nodeSize]; omega]
      exact ih i post (by omega)

theorem descendantsList_replicate_succ (k q : Nat) :
    descendantsList (List.replicate (k + 1) listItemNode) q =
      (listItemNode, q) :: descendantsList (List.replicate k listItemNode) (q + 2) := by
  rw [List.replicate_succ]
  simp [descendantsList, descendantsNode, listItemNode, PMNode.nodeSize, fragmentSize]

/-- Folding an open accumulation over a run of bare sibling list items
(positions q, q+2, ...), whose in-document successors keep the run open
until the last item closes it: the accumulation is processed exactly once,
at closure, breaking at the recorded start when it overflows. -/
theorem run_fold_open (doc : List PMNode) (measure : Nat → Nat) (effH : Int) :
    ∀ (k : Nat) (q : Nat) (s : FoldState),
      0 < k →
      s.lastNodeWasList = true →
      (∀ j, j < k → 0 < measure (q + 2 * j)) →
      (∀ j, j + 1 < k → nodeAtList doc (q + 2 * j + 2) = some listItemNode) →
      isLastFromOpt (nodeAtList doc (q + 2 * k)) = true →
      List.foldl (visit doc measure effH) s
        (descendantsList (List.replicate k listItemNode) q) =
      (if effH < (s.currentPageHeight : Int) +
          ((s.currentListHeight + runSum measure q k : Nat) : Int) then
        { breaks := s.breaks ++ [s.listStartPos],
          currentPageHeight := s.currentListHeight + runSum measure q k,
          lastNodeWasList := false,
          currentListHeight := s.currentListHeight + runSum measure q k,
          listStartPos := s.listStartPos }
      else
        { breaks := s.breaks,
          currentPageHeight := s.currentPageHeight +
            (s.currentListHeight + runSum measure q k),
          lastNodeWasList := false,
          currentListHeight := s.currentListHeight + runSum measure q k,
          listStartPos := s.listStartPos }) := by
  intro k
  induction k with
  | zero =>
    intro q s hk _ _ _ _
    exact absurd hk (lt_irrefl 0)
  | succ k ih =>
    intro q s _ hlast hhts hmid hend
    rw [descendantsList_replicate_succ k q, List.foldl_cons]
    have hb : listItemNode.isBlock = true := rfl
    have hl : isListRelatedName listItemNode.typeName = true := rfl
    have hh : measure q ≠ 0 := by
      have h0 := hhts 0 (by omega)
      rw [show q + 2 * 0 = q from by omega] at h0
      omega
    rcases Nat.eq_zero_or_pos k with hk0 | hkpos
    · subst hk0
      have hcl : isLastFromOpt (nodeAtList doc (q + listItemNode.nodeSize)) = true := by
        rw [listItemNode_nodeSize]
        rw [show q + 2 = q + 2 * 1 from by omega]
        exact hend
      rw [show descendantsList (List.replicate 0 listItemNode) (q + 2) = [] from rfl,
        List.foldl_nil]
      have hrs : s.currentListHeight + runSum measure q 1
          = s.currentListHeight + measure q := by
        rw [show runSum measure q 1 = measure q + runSum measure (q + 2) 0 from rfl]
        rw [show runSum measure (q + 2) 0 = 0 from rfl]
        omega
      rw [hrs]
      by_cases hov : effH < (s.currentPageHeight : Int) +
          ((s.currentListHeight + measure q : Nat) : Int)
      · rw [if_pos hov]
        rw [visit_list_close_break_cont doc measure effH s listItemNode q hb hh hl hlast hcl
          (by push_cast at hov ⊢; omega)]
      · rw [if_neg hov]
        rw [visit_list_close_fit_cont doc measure effH s listItemNode q hb hh hl hlast hcl
          (by push_cast at hov ⊢; omega)]
    · have hcl : isLastFromOpt (nodeAtList doc (q + listItemNode.nodeSize)) = false := by
        rw [listItemNode_nodeSize]
        have h0 := hmid 0 (by omega)
        rw [show q + 2 * 0 + 2 = q + 2 from by omega] at h0
        rw [h0]
        rfl
      rw [visit_list_open_cont doc measure effH s listItemNode q hb hh hl hlast hcl]
      have ihres := ih (q + 2)
        { breaks := s.breaks, currentPageHeight := s.currentPageHeight,
          lastNodeWasList := true,
          currentListHeight := s.currentListHeight + measure q,
          listStartPos := s.listStartPos }
        hkpos rfl
        (fun j hj => by
          have h1 := hhts (j + 1) (by omega)
          rwa [show q + 2 * (j + 1) = q + 2 + 2 * j from by omega] at h1)
        (fun j hj => by
          have h1 := hmid (j + 1) (by omega)
          rwa [show q + 2 * (j + 1) + 2 = q + 2 + 2 * j + 2 from by omega] at h1)
        (by
          have h1 := hend
          rwa [show q + 2 * (k + 1) = q + 2 + 2 * k from by omega] at h1)
      dsimp only at ihres
      rw [ihres]
      have hrs : s.currentListHeight + measure q + runSum measure (q + 2) k
          = s.currentListHeight + runSum measure q (k + 1) := by
        rw [show runSum measure q (k + 1)
          = measure q + runSum measure (q + 2) k from rfl]
        omega
      rw [hrs]

/-- C1, amended: for a maximal run of BARE SIBLING list items (a list
group with no separately measured container) of positive heights, starting
at position fragmentSize pre with the traversal closed and the in-document
successor of the run non-list (or absent), an overflowing accumulated
height yields exactly one break for the whole run, at the run's start, and
the page fill becomes the entire accumulated height.  The original claim
over arbitrary list groups fails: a bulletList container closes as its own
unit first (nodeAt skips past the whole list), so the break for the items
lands at the first item, not at the group's start, and the fill is only
the items' sum (see the counterexample). -/
theorem c1_list_run_atomic
    (pre post : List PMNode) (nItems : Nat) (measure : Nat → Nat)
    (o : PaginationOptions) (s : FoldState)
    (hn : 0 < nItems)
    (hs : List.foldl (visit (pre ++ List.replicate nItems listItemNode ++ post)
      measure (effectivePageHeight o)) initState (descendantsList pre 0) = s)
    (hlast : s.lastNodeWasList = false)
    (hhts : ∀ j, j < nItems → 0 < measure (fragmentSize pre + 2 * j))
    (hend : isLastFromOpt (nodeAtList (pre ++ List.replicate nItems listItemNode ++ post)
      (fragmentSize pre + 2 * nItems)) = true)
    (hov : effectivePageHeight o < (s.currentPageHeight : Int) +
      ((runSum measure (fragmentSize pre) nItems : Nat) : Int)) :
    List.foldl (visit (pre ++ List.replicate nItems listItemNode ++ post)
        measure (effectivePageHeight o)) initState
        (descendantsList (pre ++ List.replicate nItems listItemNode) 0) =
      { breaks := s.breaks ++ [fragmentSize pre],
        currentPageHeight := runSum measure (fragmentSize pre) nItems,
        lastNodeWasList := false,
        currentListHeight := runSum measure (fragmentSize pre) nItems,
        listStartPos := fragmentSize pre } ∧
    ∃ t, computeBreaks (pre ++ List.replicate nItems listItemNode ++ post) measure o =
      s.breaks ++ fragmentSize pre :: t := by
  have hmid : ∀ j, j + 1 < nItems →
      nodeAtList (pre ++ List.replicate nItems listItemNode ++ post)
        (fragmentSize pre + 2 * j + 2) = some listItemNode := by
    intro j hj
    rw [List.append_assoc]
    rw [show fragmentSize pre + 2 * j + 2 = fragmentSize pre + 2 * (j + 1) from by omega]
    rw [nodeAtList_append_right pre (List.replicate nItems listItemNode ++ post) (2 * (j + 1))]
    exact nodeAtList_replicate_item nItems (j + 1) post hj
  have hpart1 : List.foldl (visit (pre ++ List.replicate nItems listItemNode ++ post)
      measure (effectivePageHeight o)) initState
      (descendantsList (pre ++ List.replicate nItems listItemNode) 0) =
      { breaks := s.breaks ++ [fragmentSize pre],
        currentPageHeight := runSum measure (fragmentSize pre) nItems,
        lastNodeWasList := false,
        currentListHeight := runSum measure (fragmentSize pre) nItems,
        listStartPos := fragmentSize pre } := by
    rw [descendantsList_append pre (List.replicate nItems listItemNode) 0]
    rw [List.foldl_append]
    rw [hs]
    rw [show (0 : Nat) + fragmentSize pre = fragmentSize pre from by omega]
    obtain ⟨n', hn'⟩ : ∃ n', nItems = n' + 1 := ⟨nItems - 1, by omega⟩
    subst hn'
    rw [descendantsList_replicate_succ n' (fragmentSize pre), List.foldl_cons]
    have hb : listItemNode.isBlock = true := rfl
    have hl : isListRelatedName listItemNode.typeName = true := rfl
    have hh : measure (fragmentSize pre) ≠ 0 := by
      have h0 := hhts 0 (by omega)
      rw [show fragmentSize pre + 2 * 0 = fragmentSize pre from by omega] at h0
      omega
    rcases Nat.eq_zero_or_pos n' with hn0 | hnpos
    · subst hn0
      have hcl : isLastFromOpt (nodeAtList
          (pre ++ List.replicate 1 listItemNode ++ post)
          (fragmentSize pre + listItemNode.nodeSize)) = true := by
        rw [listItemNode_nodeSize]
        rw [show fragmentSize pre + 2 = fragmentSize pre + 2 * 1 from by omega]
        exact hend
      rw [show descendantsList (List.replicate 0 listItemNode) (fragmentSize pre + 2) = []
        from rfl, List.foldl_nil]
      have hrs : runSum measure (fragmentSize pre) 1 = measure (fragmentSize pre) := by
        rw [show runSum measure (fragmentSize pre) 1
          = measure (fragmentSize pre) + runSum measure (fragmentSize pre + 2) 0 from rfl]
        rw [show runSum measure (fragmentSize pre + 2) 0 = 0 from rfl]
        omega
      rw [hrs] at hov ⊢
      rw [visit_list_close_break_fresh _ measure (effectivePageHeight o) s listItemNode
        (fragmentSize pre) hb hh hl hlast hcl hov]
    · have hcl : isLastFromOpt (nodeAtList
          (pre ++ List.replicate (n' + 1) listItemNode ++ post)
          (fragmentSize pre + listItemNode.nodeSize)) = false := by
        rw [listItemNode_nodeSize]
        have h0 := hmid 0 (by omega)
        rw [show fragmentSize pre + 2 * 0 + 2 = fragmentSize pre + 2 from by omega] at h0
        rw [h0]
        rfl
      rw [visit_list_open_fresh _ measure (effectivePageHeight o) s listItemNode
        (fragmentSize pre) hb hh hl hlast hcl]
      have ihres := run_fold_open (pre ++ List.replicate (n' + 1) listItemNode ++ post)
        measure (effectivePageHeight o) n' (fragmentSize pre + 2)
        { breaks := s.breaks, currentPageHeight := s.currentPageHeight,
          lastNodeWasList := true,
          currentListHeight := measure (fragmentSize pre),
          listStartPos := fragmentSize pre }
        hnpos rfl
        (fun j hj => by
          have h1 := hhts (j + 1) (by omega)
          rwa [show fragmentSize pre + 2 * (j + 1) = fragmentSize pre + 2 + 2 * j
            from by omega] at h1)
        (fun j hj => by
          have h1 := hmid (j + 1) (by omega)
          rwa [show fragmentSize pre + 2 * (j + 1) + 2 = fragmentSize pre + 2 + 2 * j + 2
            from by omega] at h1)
        (by
          have h1 := hend
          rwa [show fragmentSize pre + 2 * (n' + 1) = fragmentSize pre + 2 + 2 * n'
            from by omega] at h1)
      dsimp only at ihres
      rw [ihres]
      have hrs : measure (fragmentSize pre) + runSum measure (fragmentSize pre + 2) n'
          = runSum measure (fragmentSize pre) (n' + 1) := by
        rw [show runSum measure (fragmentSize pre) (n' + 1)
          = measure (fragmentSize pre) + runSum measure (fragmentSize pre + 2) n' from rfl]
      rw [hrs]
      rw [if_pos hov]
  refine ⟨hpart1, ?_⟩
  unfold computeBreaks
  rw [descendantsList_append (pre ++ List.replicate nItems listItemNode) post 0]
  rw [List.foldl_append]
  rw [hpart1]
  obtain ⟨t, ht⟩ := foldl_visit_extend (pre ++ List.replicate nItems listItemNode ++ post)
    measure (effectivePageHeight o)
    (descendantsList post (0 + fragmentSize (pre ++ List.replicate nItems listItemNode)))
    { breaks := s.breaks ++ [fragmentSize pre],
      currentPageHeight := runSum measure (fragmentSize pre) nItems,
      lastNodeWasList := false,
      currentListHeight := runSum measure (fragmentSize pre) nItems,
      listStartPos := fragmentSize pre }
  refine ⟨t, ?_⟩
  rw [ht]
  simp

def runWitnessMeasure : Nat → Nat :=
  fun p => if p = 0 then 500 else if p = 2 then 300 else if p = 4 then 300 else 0

theorem c1_list_run_atomic_witness :
    List.foldl (visit ([paragraphNode] ++ List.replicate 2 listItemNode ++ [])
        runWitnessMeasure (effectivePageHeight defaultOptions)) initState
        (descendantsList ([paragraphNode] ++ List.replicate 2 listItemNode) 0) =
      { breaks := [2], currentPageHeight := 600,
        lastNodeWasList := false, currentListHeight := 600, listStartPos := 2 } ∧
    ∃ t, computeBreaks ([paragraphNode] ++ List.replicate 2 listItemNode ++ [])
        runWitnessMeasure defaultOptions = [] ++ 2 :: t :=
  c1_list_run_atomic [paragraphNode] [] 2 runWitnessMeasure defaultOptions
    { breaks := [], currentPageHeight := 500, lastNodeWasList := false,
      currentListHeight := 0, listStartPos := 0 }
    (by decide) (by decide) rfl (by decide) (by decide) (by decide)

/-- C1, counterexample to the original claim: the maximal run of
list-related nodes of containerListDoc starts at the bulletList container
(position 2) and accumulates 1000 (container 500 plus items 250 + 250)
against fill 100, yet the single emitted break sits at position 3 (the
first item), not at the group start 2, and the final page fill is 500 (the
items' sum), not the entire 1000: the container closed as its own unit and
fit, then the item run broke separately. -/
theorem c1_container_split_counterexample :
    computeBreaks containerListDoc containerListMeasure defaultOptions = [3] ∧
    2 ∉ computeBreaks containerListDoc containerListMeasure defaultOptions ∧
    descendantsList containerListDoc 0 =
      [(paragraphNode, 0), (.elem "bulletList" true [listItemNode, listItemNode], 2),
        (listItemNode, 3), (listItemNode, 5)] ∧
    (List.foldl (visit containerListDoc containerListMeasure
        (effectivePageHeight defaultOptions)) initState
        (descendantsList containerListDoc 0)).currentPageHeight = 500 :=
  ⟨by decide, by decide, rfl, by decide⟩
